import Mathlib

/-!
Formal model of FakePDB's IDA plugin module
src/src_plugins/ida/fakepdb/dumpinfo.py.

The script runs inside the IDA disassembler and exports the host's analysis
database to a JSON file.  The host database is closed and host-owned; every
IDA API call the script performs is modelled here as a field of the
structure HostDB (a pure, read-only query), and the handful of IDA API
functions whose results are derived from other queries (the function-chunk
walkers) are modelled as Lean functions over the chunk list, following the
documented IDA semantics.  Python integers are modelled as Nat (addresses,
flags) and Int (relative virtual addresses, which are computed by
subtraction); Python None becomes Option.none.
-/

namespace FakePDB

/-- Flag FUNC_TAIL of the host SDK (ida_funcs): marks a chunk as a tail
chunk of some function rather than a function entry chunk. -/
def FUNC_TAIL : Nat := 0x8000

/-- Flag FF_LABL of the host SDK (ida_bytes): the name at an address was
auto-generated by analysis. -/
def FF_LABL : Nat := 0x8000

/-- A function chunk of the host database (IDA func_t).  A chunk whose
flags contain FUNC_TAIL is a tail chunk; any other chunk is a function. -/
structure Chunk where
  start_ea : Nat
  end_ea : Nat
  flags : Nat
deriving DecidableEq, Repr

/-- A segment of the host database (IDA segment_t) together with the
host-reported name and segment class strings. -/
structure Segment where
  start_ea : Nat
  name : String
  sclass : String
  sel : Nat
deriving DecidableEq, Repr

/-- One argument of a host function type (IDA funcarg_t): the argument
name, the host-printed one-line type string, and the argloc atype code. -/
structure FuncArg where
  name : String
  typeStr : String
  atype : Int
deriving DecidableEq, Repr

/-- The host analysis database, as seen through the IDA API calls that
dumpinfo.py performs.  Every field is a read-only query owned by the host;
dump_info never writes to it. -/
structure HostDB where
  get_imagebase : Nat
  root_filename : String
  procname : String
  is_32bit_exactly : Bool
  min_ea : Nat
  max_ea : Nat
  segm_qty : Nat
  getnseg : Nat → Option Segment
  entry_qty : Nat
  get_entry_ordinal : Nat → Nat
  get_entry : Nat → Nat
  get_entry_name : Nat → String
  get_full_flags : Nat → Nat
  is_func_flag : Nat → Bool
  is_data_flag : Nat → Bool
  chunks : List Chunk
  get_func_name : Nat → String
  is_public_name : Nat → Bool
  get_visible_name : Nat → String
  code_items : Chunk → List Nat
  func_cc : Nat → Nat
  func_rettype : Nat → String
  func_args : Nat → List FuncArg
  nlist_size : Nat
  get_nlist_ea : Nat → Nat
  get_nlist_name : Nat → String

/-- Whether a chunk is a tail chunk (its flags contain FUNC_TAIL). -/
def isTail (c : Chunk) : Bool := (c.flags &&& FUNC_TAIL) != 0

/-- Model of ida_funcs.get_fchunk: the chunk containing the address. -/
def get_fchunk (db : HostDB) (ea : Nat) : Option Chunk :=
  db.chunks.find? (fun c => decide (c.start_ea ≤ ea) && decide (ea < c.end_ea))

/-- Model of ida_funcs.get_next_fchunk: the first chunk starting strictly
after the address (the host keeps the chunk list sorted by start address). -/
def get_next_fchunk (db : HostDB) (ea : Nat) : Option Chunk :=
  db.chunks.find? (fun c => decide (ea < c.start_ea))

/-- Model of ida_funcs.get_next_func: the first non-tail chunk (function)
starting strictly after the address. -/
def get_next_func (db : HostDB) (ea : Nat) : Option Chunk :=
  db.chunks.find? (fun c => decide (ea < c.start_ea) && !isTail c)

/-- Model of ida_funcs.get_func: the function owning the address; it is
some chunk exactly when the address lies inside a function chunk. -/
def get_func (db : HostDB) (ea : Nat) : Option Chunk :=
  db.chunks.find? (fun c => decide (c.start_ea ≤ ea) && decide (ea < c.end_ea))

/-- The record built by __process_general. -/
structure GeneralRecord where
  filename : String
  architecture : String
  bitness : Nat
deriving DecidableEq, Repr

/-- The record built per segment by __process_segments. -/
structure SegmentRecord where
  name : String
  start_rva : Int
  type : String
  selector : Nat
deriving DecidableEq, Repr

/-- The record built per entry by __process_exports. -/
structure ExportRecord where
  ordinal : Nat
  rva : Int
  name : String
  type : String
deriving DecidableEq, Repr

/-- The record built per function argument by __process_function_typeinfo. -/
structure ArgRecord where
  name : String
  type : String
  argument_location : String
deriving DecidableEq, Repr

/-- The record built per label by __process_function_labels. -/
structure LabelRecord where
  offset : Int
  name : String
  is_public : Bool
  is_autonamed : Bool
deriving DecidableEq, Repr

/-- The record built per function by __process_functions (the dict keys
added by __process_function_typeinfo are part of the same record). -/
structure FunctionRecord where
  start_rva : Int
  name : String
  is_public : Bool
  is_autonamed : Bool
  calling_convention : Option String
  return_type : String
  arguments : List ArgRecord
  labels : List LabelRecord
deriving DecidableEq, Repr

/-- The record built per name-list entry by __process_names. -/
structure NameRecord where
  rva : Int
  name : String
  is_public : Bool
  is_func : Bool
deriving DecidableEq, Repr

/-- Translation of DumpInfo.__describe_argloc: maps an argloc atype code
to a location string; every code outside 0..6 takes the final else branch
and yields "custom" (the trailing Python `return None` is unreachable). -/
def describe_argloc (location : Int) : String :=
  if location = 0 then "none"
  else if location = 1 then "stack"
  else if location = 2 then "distributed"
  else if location = 3 then "register_one"
  else if location = 4 then "register_pair"
  else if location = 5 then "register_relative"
  else if location = 6 then "global_address"
  else "custom"

/-- Translation of DumpInfo.__describe_callingconvention: maps a calling
convention code to a name; a code matching none of the sixteen tested
constants falls through to the trailing `return None`. -/
def describe_callingconvention (cc : Int) : Option String :=
  if cc = 0x00 then some "invalid"
  else if cc = 0x10 then some "unknown"
  else if cc = 0x20 then some "voidarg"
  else if cc = 0x30 then some "cdecl"
  else if cc = 0x40 then some "cdecl_ellipsis"
  else if cc = 0x50 then some "stdcall"
  else if cc = 0x60 then some "pascal"
  else if cc = 0x70 then some "fastcall"
  else if cc = 0x80 then some "thiscall"
  else if cc = 0x90 then some "manual"
  else if cc = 0xA0 then some "spoiled"
  else if cc = 0xB0 then some "reserved"
  else if cc = 0xC0 then some "reserved"
  else if cc = 0xD0 then some "special_ellipsis"
  else if cc = 0xE0 then some "special_pstack"
  else if cc = 0xF0 then some "special"
  else none

/-- Translation of DumpInfo.__process_general: architecture string fixup,
then the bitness variable is initialised to 16 and immediately overwritten
by the if/else (so the 16 is dead). -/
def process_general (db : HostDB) : GeneralRecord :=
  let arch := db.procname
  let arch :=
    if arch = "metapc" then (if db.is_32bit_exactly then "x86" else "x64")
    else if arch = "ARM" then "arm"
    else arch
  let bitness : Nat := 16
  let bitness : Nat := if db.is_32bit_exactly then 32 else 64
  { filename := db.root_filename, architecture := arch, bitness := bitness }

/-- The segment record built for one segment by __process_segments. -/
def mk_segment_record (base : Int) (seg : Segment) : SegmentRecord :=
  { name := seg.name
    start_rva := (seg.start_ea : Int) - base
    type := seg.sclass
    selector := seg.sel }

/-- Translation of DumpInfo.__process_segments: iterate the segment
indices, skip indices where getnseg returns no segment, and collect a
record for each segment. -/
def process_segments (db : HostDB) (base : Int) : List SegmentRecord :=
  (List.range db.segm_qty).filterMap (fun n =>
    (db.getnseg n).map (mk_segment_record base))

/-- The export record built for one entry index by __process_exports. -/
def mk_export_record (db : HostDB) (base : Int) (i : Nat) : ExportRecord :=
  let ordinal := db.get_entry_ordinal i
  let ea := db.get_entry ordinal
  let flags := db.get_full_flags ea
  let ty :=
    if db.is_func_flag flags then "function"
    else if db.is_data_flag flags then "data"
    else "unknown"
  { ordinal := ordinal
    rva := (ea : Int) - base
    name := db.get_entry_name ordinal
    type := ty }

/-- Translation of DumpInfo.__process_exports: one record per entry index. -/
def process_exports (db : HostDB) (base : Int) : List ExportRecord :=
  (List.range db.entry_qty).map (mk_export_record db base)

/-- Translation of DumpInfo.__process_function_labels: walk the code items
of the function and collect a label record for every item carrying a
non-empty visible local name. -/
def process_function_labels (db : HostDB) (func : Chunk) : List LabelRecord :=
  (db.code_items func).filterMap (fun ea =>
    let name := db.get_visible_name ea
    if name ≠ "" then
      some { offset := (ea : Int) - (func.start_ea : Int)
             name := name
             is_public := db.is_public_name ea
             is_autonamed := (db.get_full_flags ea &&& FF_LABL) != 0 }
    else none)

/-- The function record built for one function chunk by the loop body of
__process_functions, including the fields added by
__process_function_typeinfo and the labels list. -/
def mk_function_record (db : HostDB) (base : Int) (func : Chunk) : FunctionRecord :=
  let start_ea := func.start_ea
  let func_flags := db.get_full_flags start_ea
  { start_rva := (start_ea : Int) - base
    name := db.get_func_name start_ea
    is_public := db.is_public_name start_ea
    is_autonamed := (func_flags &&& FF_LABL) != 0
    calling_convention := describe_callingconvention (db.func_cc start_ea)
    return_type := db.func_rettype start_ea
    arguments := (db.func_args start_ea).map (fun a =>
      { name := a.name
        type := a.typeStr
        argument_location := describe_argloc a.atype })
    labels := process_function_labels db func }

/-- Termination measure for the chunk-walking loops: a chunk handed to a
loop iteration is measured by how many chunks start strictly after it. -/
def chunkMeasure (db : HostDB) : Option Chunk → Nat
  | none => 0
  | some c => 1 + (db.chunks.filter (fun x => decide (c.start_ea < x.start_ea))).length

/-- Fuel-indexed version of the tail-skipping loop of __process_functions
(`while chunk and chunk.start_ea < end and FUNC_TAIL set`).  The fuel is a
technical device: skipTails below always supplies enough of it, as the
lemma skipTails_some shows. -/
def skipTailsF (db : HostDB) (endEA : Nat) : Nat → Option Chunk → Option Chunk
  | 0, _ => none
  | _ + 1, none => none
  | n + 1, some c =>
    if c.start_ea < endEA ∧ isTail c = true then
      skipTailsF db endEA n (get_next_fchunk db c.start_ea)
    else some c

/-- The tail-skipping loop of __process_functions. -/
def skipTails (db : HostDB) (endEA : Nat) (o : Option Chunk) : Option Chunk :=
  skipTailsF db endEA (db.chunks.length + 1) o

/-- Fuel-indexed version of the main loop of __process_functions
(`while func and func.start_ea < end`): emit the record for the current
function, emit the RVA range warning on stderr when the RVA is at least
2^32, and continue at the next function.  The fuel is a technical device:
funcLoop below always supplies enough of it (lemmas funcLoop_none and
funcLoop_some). -/
def funcLoopF (db : HostDB) (base : Int) (endEA : Nat) :
    Nat → Option Chunk → List FunctionRecord × List String
  | 0, _ => ([], [])
  | _ + 1, none => ([], [])
  | n + 1, some f =>
    if f.start_ea < endEA then
      let record := mk_function_record db base f
      let warns :=
        if 2 ^ 32 ≤ record.start_rva then
          ["RVA out of range for function: " ++ record.name]
        else []
      let next := funcLoopF db base endEA n (get_next_func db f.start_ea)
      (record :: next.1, warns ++ next.2)
    else ([], [])

/-- The main loop of __process_functions, returning the emitted function
records and the stderr warning lines. -/
def funcLoop (db : HostDB) (base : Int) (endEA : Nat) (o : Option Chunk) :
    List FunctionRecord × List String :=
  funcLoopF db base endEA (db.chunks.length + 1) o

/-- Translation of DumpInfo.__process_functions: locate the first chunk at
or after the database minimum address, skip tail chunks, then walk the
functions up to the database maximum address. -/
def process_functions (db : HostDB) (base : Int) : List FunctionRecord × List String :=
  let start := db.min_ea
  let endEA := db.max_ea
  let chunk := get_fchunk db start
  let chunk :=
    match chunk with
    | none => get_next_fchunk db start
    | some c => some c
  let chunk := skipTails db endEA chunk
  funcLoop db base endEA chunk

/-- The name record built for one name-list index by __process_names.
Note that is_func recomputes the same get_func membership test that the
skip in the loop has already decided negatively. -/
def mk_name_record (db : HostDB) (base : Int) (i : Nat) : NameRecord :=
  let ea := db.get_nlist_ea i
  { rva := (ea : Int) - base
    name := db.get_nlist_name i
    is_public := db.is_public_name ea
    is_func := (get_func db ea).isSome }

/-- The loop of DumpInfo.__process_names over a list of name-list indices:
skip entries lying inside a function, emit the record and (when the RVA is
at least 2^32) the stderr warning for the rest. -/
def names_loop (db : HostDB) (base : Int) : List Nat → List NameRecord × List String
  | [] => ([], [])
  | i :: rest =>
    let ea := db.get_nlist_ea i
    if (get_func db ea).isSome then names_loop db base rest
    else
      let record := mk_name_record db base i
      let warns :=
        if 2 ^ 32 ≤ record.rva then
          ["RVA out of range for name: " ++ record.name]
        else []
      let next := names_loop db base rest
      (record :: next.1, warns ++ next.2)

/-- Translation of DumpInfo.__process_names. -/
def process_names (db : HostDB) (base : Int) : List NameRecord × List String :=
  names_loop db base (List.range db.nlist_size)

/-- Claim-side definition: the function loop with the RVA range check
absent entirely, used to state that the emitted record list does not
depend on that check (the check only produces a stderr warning). -/
def funcLoopRecordsF (db : HostDB) (base : Int) (endEA : Nat) :
    Nat → Option Chunk → List FunctionRecord
  | 0, _ => []
  | _ + 1, none => []
  | n + 1, some f =>
    if f.start_ea < endEA then
      mk_function_record db base f ::
        funcLoopRecordsF db base endEA n (get_next_func db f.start_ea)
    else []

/-- Claim-side definition: the records of funcLoop without the RVA check. -/
def funcLoopRecords (db : HostDB) (base : Int) (endEA : Nat) (o : Option Chunk) :
    List FunctionRecord :=
  funcLoopRecordsF db base endEA (db.chunks.length + 1) o

/-- Claim-side definition: the names loop with the RVA range check absent
entirely, used to state that the emitted record list does not depend on
that check. -/
def names_loopRecords (db : HostDB) (base : Int) : List Nat → List NameRecord
  | [] => []
  | i :: rest =>
    let ea := db.get_nlist_ea i
    if (get_func db ea).isSome then names_loopRecords db base rest
    else mk_name_record db base i :: names_loopRecords db base rest

/-- A JSON value, as produced by Python's json.dump (object member order
is the dict insertion order). -/
inductive JValue where
  | jnull : JValue
  | jbool : Bool → JValue
  | jint : Int → JValue
  | jstr : String → JValue
  | jarr : List JValue → JValue
  | jobj : List (String × JValue) → JValue

/-- The member keys of a top-level JSON object. -/
def JValue.topKeys : JValue → List String
  | .jobj fields => fields.map Prod.fst
  | _ => []

/-- JSON value of an optional string (Python None serialises to null). -/
def json_of_opt_str : Option String → JValue
  | none => JValue.jnull
  | some s => JValue.jstr s

/-- JSON object for the general section, keys in dict insertion order. -/
def json_of_general (g : GeneralRecord) : JValue :=
  .jobj [("filename", .jstr g.filename),
         ("architecture", .jstr g.architecture),
         ("bitness", .jint g.bitness)]

/-- JSON object for one segment record, keys in dict insertion order. -/
def json_of_segment (s : SegmentRecord) : JValue :=
  .jobj [("name", .jstr s.name),
         ("start_rva", .jint s.start_rva),
         ("type", .jstr s.type),
         ("selector", .jint s.selector)]

/-- JSON object for one export record, keys in dict insertion order. -/
def json_of_export (e : ExportRecord) : JValue :=
  .jobj [("ordinal", .jint e.ordinal),
         ("rva", .jint e.rva),
         ("name", .jstr e.name),
         ("type", .jstr e.type)]

/-- JSON object for one argument record, keys in dict insertion order. -/
def json_of_arg (a : ArgRecord) : JValue :=
  .jobj [("name", .jstr a.name),
         ("type", .jstr a.type),
         ("argument_location", .jstr a.argument_location)]

/-- JSON object for one label record, keys in dict insertion order. -/
def json_of_label (l : LabelRecord) : JValue :=
  .jobj [("offset", .jint l.offset),
         ("name", .jstr l.name),
         ("is_public", .jbool l.is_public),
         ("is_autonamed", .jbool l.is_autonamed)]

/-- JSON object for one function record, keys in dict insertion order
(the typeinfo keys and the labels key are appended to the dict after the
first four). -/
def json_of_function (f : FunctionRecord) : JValue :=
  .jobj [("start_rva", .jint f.start_rva),
         ("name", .jstr f.name),
         ("is_public", .jbool f.is_public),
         ("is_autonamed", .jbool f.is_autonamed),
         ("calling_convention", json_of_opt_str f.calling_convention),
         ("return_type", .jstr f.return_type),
         ("arguments", .jarr (f.arguments.map json_of_arg)),
         ("labels", .jarr (f.labels.map json_of_label))]

/-- JSON object for one name record, keys in dict insertion order. -/
def json_of_name (n : NameRecord) : JValue :=
  .jobj [("rva", .jint n.rva),
         ("name", .jstr n.name),
         ("is_public", .jbool n.is_public),
         ("is_func", .jbool n.is_func)]

/-- A file written by the script: the path handed to open() and the JSON
document passed to json.dump. -/
structure FileWrite where
  path : String
  doc : JValue

/-- The observable outcome of a dump_info call: the resulting host
database state (threaded through; every API call is a read), the files
written, and the lines printed to stderr. -/
structure DumpResult where
  dbAfter : HostDB
  writes : List FileWrite
  stderrLines : List String

/-- Translation of DumpInfo.dump_info: read the image base once, build the
five sections, and serialise them as a single JSON document written to
filepath; the stderr lines are the RVA warnings of the functions pass
followed by those of the names pass. -/
def dump_info (db : HostDB) (filepath : String) : DumpResult :=
  let base : Int := db.get_imagebase
  let general := process_general db
  let segments := process_segments db base
  let exports := process_exports db base
  let functions := process_functions db base
  let names := process_names db base
  let output : JValue :=
    .jobj [("general", json_of_general general),
           ("segments", .jarr (segments.map json_of_segment)),
           ("exports", .jarr (exports.map json_of_export)),
           ("functions", .jarr (functions.1.map json_of_function)),
           ("names", .jarr (names.1.map json_of_name))]
  { dbAfter := db
    writes := [{ path := filepath, doc := output }]
    stderrLines := functions.2 ++ names.2 }

/-- A small concrete host database used to instantiate the theorems. -/
def sampleDB : HostDB :=
  { get_imagebase := 0
    root_filename := "sample.exe"
    procname := "metapc"
    is_32bit_exactly := false
    min_ea := 0x1000
    max_ea := 0x2000
    segm_qty := 1
    getnseg := fun n => if n = 0 then some ⟨0x1000, ".text", "CODE", 1⟩ else none
    entry_qty := 1
    get_entry_ordinal := fun i => i
    get_entry := fun _ => 0x1000
    get_entry_name := fun _ => "main"
    get_full_flags := fun _ => 0
    is_func_flag := fun _ => false
    is_data_flag := fun _ => false
    chunks := [⟨0x1000, 0x1010, 0⟩, ⟨0x1010, 0x1020, 0x8000⟩, ⟨0x1030, 0x1040, 0⟩]
    get_func_name := fun _ => "sub"
    is_public_name := fun _ => false
    get_visible_name := fun _ => ""
    code_items := fun _ => []
    func_cc := fun _ => 0x30
    func_rettype := fun _ => "int"
    func_args := fun _ => []
    nlist_size := 1
    get_nlist_ea := fun _ => 0x100000000
    get_nlist_name := fun _ => "gDataBig" }

/-! Basic list lemmas used to reason about the host's find-first queries. -/

theorem find_eq_head_filter {α : Type} (p : α → Bool) (l : List α) :
    l.find? p = (l.filter p).head? := by
  induction l with
  | nil => rfl
  | cons x xs ih =>
    cases h : p x with
    | true =>
      rw [List.find?_cons_of_pos xs h, List.filter_cons]
      simp [h]
    | false =>
      rw [List.find?_cons_of_neg xs (by simp [h]), List.filter_cons, if_neg (by simp [h])]
      exact ih

theorem length_filter_le_of {α : Type} (p q : α → Bool) :
    ∀ l : List α, (∀ x ∈ l, q x = true → p x = true) →
      (l.filter q).length ≤ (l.filter p).length
  | [], _ => by simp
  | x :: xs, himp => by
    have ih := length_filter_le_of p q xs (fun y hy => himp y (List.mem_cons_of_mem _ hy))
    by_cases hq : q x = true
    · have hp := himp x (List.mem_cons_self _ _) hq
      simp [List.filter_cons, hq, hp]
      omega
    · have hq' : q x = false := by revert hq; cases q x <;> simp
      by_cases hp : p x = true
      · simp [List.filter_cons, hq', hp]
        omega
      · have hp' : p x = false := by revert hp; cases p x <;> simp
        simp [List.filter_cons, hq', hp']
        omega

theorem length_filter_lt_of {α : Type} (p q : α → Bool) (l : List α)
    (himp : ∀ x ∈ l, q x = true → p x = true) (a : α) (ha : a ∈ l)
    (hpa : p a = true) (hqa : q a = false) :
    (l.filter q).length < (l.filter p).length := by
  obtain ⟨s, t, rfl⟩ := List.append_of_mem ha
  have hs := length_filter_le_of p q s (fun y hy => himp y (by simp [hy]))
  have ht := length_filter_le_of p q t (fun y hy => himp y (by simp [hy]))
  simp [List.filter_append, List.filter_cons, hpa, hqa]
  omega

/-! The termination measure of the chunk-walking loops strictly decreases
at every step, and the fuel supplied by skipTails and funcLoop is always
sufficient, so the fuel-indexed loops satisfy their intended recurrences. -/

theorem chunkMeasure_find_lt (db : HostDB) (ea : Nat) (P : Chunk → Bool)
    (hP : ∀ c, P c = true → ea < c.start_ea) :
    chunkMeasure db (db.chunks.find? P) <
      1 + (db.chunks.filter (fun x => decide (ea < x.start_ea))).length := by
  cases hfind : db.chunks.find? P with
  | none => simp [chunkMeasure]
  | some c =>
    have hc : c ∈ db.chunks := List.mem_of_find?_eq_some hfind
    have hPc : P c = true := List.find?_some hfind
    have hlt : ea < c.start_ea := hP c hPc
    have key := length_filter_lt_of (fun x => decide (ea < x.start_ea))
      (fun x => decide (c.start_ea < x.start_ea)) db.chunks
      (fun x _ hx => by simp at hx ⊢; omega) c hc (by simp [hlt]) (by simp)
    simp only [chunkMeasure]
    omega

theorem chunkMeasure_next_fchunk (db : HostDB) (c : Chunk) :
    chunkMeasure db (get_next_fchunk db c.start_ea) < chunkMeasure db (some c) := by
  have h := chunkMeasure_find_lt db c.start_ea
    (fun x => decide (c.start_ea < x.start_ea)) (fun x hx => by simpa using hx)
  simpa [get_next_fchunk, chunkMeasure] using h

theorem chunkMeasure_next_func (db : HostDB) (c : Chunk) :
    chunkMeasure db (get_next_func db c.start_ea) < chunkMeasure db (some c) := by
  have h := chunkMeasure_find_lt db c.start_ea
    (fun x => decide (c.start_ea < x.start_ea) && !isTail x)
    (fun x hx => by
      have := (Bool.and_eq_true _ _).mp hx
      simpa using this.1)
  simpa [get_next_func, chunkMeasure] using h

theorem chunkMeasure_le (db : HostDB) : ∀ o, chunkMeasure db o ≤ db.chunks.length + 1
  | none => by simp [chunkMeasure]
  | some c => by
    have h := List.length_filter_le (fun x => decide (c.start_ea < x.start_ea)) db.chunks
    simp only [chunkMeasure]
    omega

theorem skipTailsF_congr (db : HostDB) (endEA : Nat) :
    ∀ n : Nat, ∀ m : Nat, ∀ o : Option Chunk, chunkMeasure db o ≤ n →
      chunkMeasure db o ≤ m → skipTailsF db endEA n o = skipTailsF db endEA m o := by
  intro n
  induction n with
  | zero =>
    intro m o hn _
    cases o with
    | none => cases m <;> rfl
    | some c => simp [chunkMeasure] at hn
  | succ n ih =>
    intro m o hn hm
    cases o with
    | none => cases m <;> rfl
    | some c =>
      have hm1 : 1 ≤ m := by
        have : 1 ≤ chunkMeasure db (some c) := by simp [chunkMeasure]
        omega
      obtain ⟨m', rfl⟩ : ∃ m', m = m' + 1 := ⟨m - 1, by omega⟩
      simp only [skipTailsF]
      by_cases hcond : c.start_ea < endEA ∧ isTail c = true
      · simp only [if_pos hcond]
        have hnext := chunkMeasure_next_fchunk db c
        exact ih m' _ (by omega) (by omega)
      · simp only [if_neg hcond]

theorem skipTails_none (db : HostDB) (endEA : Nat) : skipTails db endEA none = none := rfl

theorem skipTails_some (db : HostDB) (endEA : Nat) (c : Chunk) :
    skipTails db endEA (some c) =
      if c.start_ea < endEA ∧ isTail c = true then
        skipTails db endEA (get_next_fchunk db c.start_ea)
      else some c := by
  unfold skipTails
  conv_lhs => simp only [skipTailsF]
  by_cases hcond : c.start_ea < endEA ∧ isTail c = true
  · simp only [if_pos hcond]
    apply skipTailsF_congr
    · have h1 := chunkMeasure_next_fchunk db c
      have h2 := chunkMeasure_le db (some c)
      omega
    · exact chunkMeasure_le db _
  · simp only [if_neg hcond]

theorem funcLoopF_congr (db : HostDB) (base : Int) (endEA : Nat) :
    ∀ n : Nat, ∀ m : Nat, ∀ o : Option Chunk, chunkMeasure db o ≤ n →
      chunkMeasure db o ≤ m →
      funcLoopF db base endEA n o = funcLoopF db base endEA m o := by
  intro n
  induction n with
  | zero =>
    intro m o hn _
    cases o with
    | none => cases m <;> rfl
    | some c => simp [chunkMeasure] at hn
  | succ n ih =>
    intro m o hn hm
    cases o with
    | none => cases m <;> rfl
    | some c =>
      have hm1 : 1 ≤ m := by
        have : 1 ≤ chunkMeasure db (some c) := by simp [chunkMeasure]
        omega
      obtain ⟨m', rfl⟩ : ∃ m', m = m' + 1 := ⟨m - 1, by omega⟩
      simp only [funcLoopF]
      by_cases hcond : c.start_ea < endEA
      · simp only [if_pos hcond]
        have hnext := chunkMeasure_next_func db c
        rw [ih m' _ (by omega) (by omega)]
      · simp only [if_neg hcond]

theorem funcLoop_none (db : HostDB) (base : Int) (endEA : Nat) :
    funcLoop db base endEA none = ([], []) := rfl

theorem funcLoop_some (db : HostDB) (base : Int) (endEA : Nat) (f : Chunk) :
    funcLoop db base endEA (some f) =
      if f.start_ea < endEA then
        (mk_function_record db base f ::
            (funcLoop db base endEA (get_next_func db f.start_ea)).1,
          (if 2 ^ 32 ≤ (mk_function_record db base f).start_rva then
              ["RVA out of range for function: " ++ (mk_function_record db base f).name]
            else []) ++ (funcLoop db base endEA (get_next_func db f.start_ea)).2)
      else ([], []) := by
  unfold funcLoop
  conv_lhs => simp only [funcLoopF]
  by_cases hcond : f.start_ea < endEA
  · simp only [if_pos hcond]
    have hc := funcLoopF_congr db base endEA db.chunks.length (db.chunks.length + 1)
      (get_next_func db f.start_ea)
      (by have h1 := chunkMeasure_next_func db f
          have h2 := chunkMeasure_le db (some f)
          omega)
      (chunkMeasure_le db _)
    rw [hc]
  · simp only [if_neg hcond]

/-! The record lists of the two warning-emitting loops coincide with the
record lists of their warning-free counterparts: the RVA range check only
contributes stderr lines. -/

theorem funcLoopF_records (db : HostDB) (base : Int) (endEA : Nat) :
    ∀ n : Nat, ∀ o : Option Chunk,
      (funcLoopF db base endEA n o).1 = funcLoopRecordsF db base endEA n o := by
  intro n
  induction n with
  | zero => intro o; cases o <;> rfl
  | succ n ih =>
    intro o
    cases o with
    | none => rfl
    | some f =>
      simp only [funcLoopF, funcLoopRecordsF]
      by_cases h : f.start_ea < endEA
      · simp only [if_pos h]
        simp [ih]
      · simp only [if_neg h]

theorem funcLoop_records (db : HostDB) (base : Int) (endEA : Nat) (o : Option Chunk) :
    (funcLoop db base endEA o).1 = funcLoopRecords db base endEA o :=
  funcLoopF_records db base endEA _ o

theorem names_loop_records (db : HostDB) (base : Int) :
    ∀ l : List Nat, (names_loop db base l).1 = names_loopRecords db base l := by
  intro l
  induction l with
  | nil => rfl
  | cons i rest ih =>
    simp only [names_loop, names_loopRecords]
    by_cases h : (get_func db (db.get_nlist_ea i)).isSome = true
    · simp only [if_pos h]
      exact ih
    · simp only [if_neg h]
      simp [ih]

/-! Every record emitted by the loops comes from a host object: a chunk of
the host chunk list for function records, a name-list index for name
records. -/

theorem mem_funcLoopF (db : HostDB) (base : Int) (endEA : Nat) :
    ∀ n : Nat, ∀ o : Option Chunk, ∀ rec ∈ (funcLoopF db base endEA n o).1,
      ∃ c : Chunk, (o = some c ∨ c ∈ db.chunks) ∧ rec = mk_function_record db base c := by
  intro n
  induction n with
  | zero =>
    intro o rec h
    cases o <;> simp [funcLoopF] at h
  | succ n ih =>
    intro o rec h
    cases o with
    | none => simp [funcLoopF] at h
    | some f =>
      simp only [funcLoopF] at h
      by_cases hf : f.start_ea < endEA
      · rw [if_pos hf] at h
        simp only [List.mem_cons] at h
        rcases h with h | h
        · exact ⟨f, Or.inl rfl, h⟩
        · obtain ⟨c, hc, hrec⟩ := ih _ rec h
          rcases hc with hc | hc
          · refine ⟨c, Or.inr ?_, hrec⟩
            simp only [get_next_func] at hc
            exact List.mem_of_find?_eq_some hc
          · exact ⟨c, Or.inr hc, hrec⟩
      · rw [if_neg hf] at h
        simp at h

theorem mem_funcLoop (db : HostDB) (base : Int) (endEA : Nat) (o : Option Chunk) :
    ∀ rec ∈ (funcLoop db base endEA o).1,
      ∃ c : Chunk, (o = some c ∨ c ∈ db.chunks) ∧ rec = mk_function_record db base c :=
  mem_funcLoopF db base endEA _ o

theorem skipTailsF_some_mem (db : HostDB) (endEA : Nat) :
    ∀ n : Nat, ∀ o : Option Chunk, ∀ c : Chunk, skipTailsF db endEA n o = some c →
      o = some c ∨ c ∈ db.chunks := by
  intro n
  induction n with
  | zero => intro o c h; simp [skipTailsF] at h
  | succ n ih =>
    intro o c h
    cases o with
    | none => simp [skipTailsF] at h
    | some c0 =>
      simp only [skipTailsF] at h
      by_cases hcond : c0.start_ea < endEA ∧ isTail c0 = true
      · rw [if_pos hcond] at h
        rcases ih _ c h with h2 | h2
        · refine Or.inr ?_
          simp only [get_next_fchunk] at h2
          exact List.mem_of_find?_eq_some h2
        · exact Or.inr h2
      · rw [if_neg hcond] at h
        injection h with h
        exact Or.inl (by rw [h])

theorem skipTails_some_mem (db : HostDB) (endEA : Nat) (o : Option Chunk) (c : Chunk)
    (h : skipTails db endEA o = some c) : o = some c ∨ c ∈ db.chunks :=
  skipTailsF_some_mem db endEA _ o c h

theorem mem_process_functions (db : HostDB) (base : Int) :
    ∀ rec ∈ (process_functions db base).1,
      ∃ c ∈ db.chunks, rec = mk_function_record db base c := by
  intro rec hrec
  unfold process_functions at hrec
  obtain ⟨c, hc, hrecEq⟩ := mem_funcLoop db base db.max_ea _ rec hrec
  rcases hc with hc | hc
  · rcases skipTails_some_mem db db.max_ea _ c hc with h2 | h2
    · cases hg : get_fchunk db db.min_ea with
      | none =>
        rw [hg] at h2
        simp only at h2
        refine ⟨c, ?_, hrecEq⟩
        simp only [get_next_fchunk] at h2
        exact List.mem_of_find?_eq_some h2
      | some c0 =>
        rw [hg] at h2
        simp only at h2
        refine ⟨c, ?_, hrecEq⟩
        have hc0 : c0 ∈ db.chunks := by
          simp only [get_fchunk] at hg
          exact List.mem_of_find?_eq_some hg
        injection h2 with h2
        rw [← h2]
        exact hc0
    · exact ⟨c, h2, hrecEq⟩
  · exact ⟨c, hc, hrecEq⟩

theorem mem_names_loop (db : HostDB) (base : Int) :
    ∀ l : List Nat, ∀ rec ∈ (names_loop db base l).1,
      ∃ i ∈ l, (get_func db (db.get_nlist_ea i)).isSome = false ∧
        rec = mk_name_record db base i := by
  intro l
  induction l with
  | nil => intro rec h; simp [names_loop] at h
  | cons i rest ih =>
    intro rec h
    simp only [names_loop] at h
    by_cases hskip : (get_func db (db.get_nlist_ea i)).isSome = true
    · rw [if_pos hskip] at h
      obtain ⟨j, hj, hs, he⟩ := ih rec h
      exact ⟨j, List.mem_cons_of_mem _ hj, hs, he⟩
    · rw [if_neg hskip] at h
      simp only [List.mem_cons] at h
      rcases h with h | h
      · exact ⟨i, List.mem_cons_self _ _, by simpa using hskip, h⟩
      · obtain ⟨j, hj, hs, he⟩ := ih rec h
        exact ⟨j, List.mem_cons_of_mem _ hj, hs, he⟩

theorem names_loop_mem_of (db : HostDB) (base : Int) :
    ∀ l : List Nat, ∀ i ∈ l, (get_func db (db.get_nlist_ea i)).isSome = false →
      mk_name_record db base i ∈ (names_loop db base l).1 := by
  intro l
  induction l with
  | nil => intro i h; cases h
  | cons j rest ih =>
    intro i hmem hnf
    simp only [names_loop]
    by_cases hskip : (get_func db (db.get_nlist_ea j)).isSome = true
    · rw [if_pos hskip]
      rcases List.mem_cons.mp hmem with rfl | hmem'
      · rw [hnf] at hskip; cases hskip
      · exact ih i hmem' hnf
    · rw [if_neg hskip]
      simp only [List.mem_cons]
      rcases List.mem_cons.mp hmem with rfl | hmem'
      · exact Or.inl rfl
      · exact Or.inr (ih i hmem' hnf)

/-! Characterisation of the function walk over a sorted chunk list: the
walk of __process_functions visits exactly the non-tail chunks below the
maximum address, in list order. -/

theorem filter_cons_sorted_and (l : List Chunk) (q : Chunk → Bool) (ea : Nat) (a : Chunk) :
    ∀ t : List Chunk, l.Pairwise (fun u v => u.start_ea < v.start_ea) →
      l.filter (fun x => decide (ea < x.start_ea) && q x) = a :: t →
      t = l.filter (fun x => decide (a.start_ea < x.start_ea) && q x) := by
  induction l with
  | nil => intro t _ h; simp at h
  | cons x xs ih =>
    intro t hs h
    obtain ⟨hx, hxs⟩ := List.pairwise_cons.mp hs
    rw [List.filter_cons] at h
    by_cases hpx : (decide (ea < x.start_ea) && q x) = true
    · rw [if_pos hpx] at h
      injection h with h1 h2
      subst h1
      rw [List.filter_cons, if_neg (by simp)]
      rw [← h2]
      apply List.filter_congr
      intro y hy
      have hlt := hx y hy
      have hea : ea < x.start_ea := by
        have := (Bool.and_eq_true _ _).mp hpx
        simpa using this.1
      have d1 : decide (ea < y.start_ea) = true := by simp; omega
      have d2 : decide (x.start_ea < y.start_ea) = true := by simp; omega
      rw [d1, d2]
    · rw [if_neg hpx] at h
      have ha : a ∈ xs := by
        have hmem : a ∈ xs.filter (fun x => decide (ea < x.start_ea) && q x) := by
          rw [h]; exact List.mem_cons_self _ _
        exact (List.mem_filter.mp hmem).1
      have hxa : x.start_ea < a.start_ea := hx a ha
      rw [List.filter_cons, if_neg (by simp; omega)]
      exact ih t hxs h

theorem filter_cons_sorted_up (l : List Chunk) (p : Chunk → Bool) (a : Chunk) :
    ∀ t : List Chunk, l.Pairwise (fun u v => u.start_ea < v.start_ea) →
      (∀ x ∈ l, ∀ y ∈ l, p x = true → x.start_ea < y.start_ea → p y = true) →
      l.filter p = a :: t →
      t = l.filter (fun x => decide (a.start_ea < x.start_ea)) := by
  induction l with
  | nil => intro t _ _ h; simp at h
  | cons x xs ih =>
    intro t hs hup h
    obtain ⟨hx, hxs⟩ := List.pairwise_cons.mp hs
    rw [List.filter_cons] at h
    by_cases hpx : p x = true
    · rw [if_pos hpx] at h
      injection h with h1 h2
      subst h1
      rw [List.filter_cons, if_neg (by simp)]
      rw [← h2]
      have hall : ∀ y ∈ xs, p y = true := fun y hy =>
        hup x (List.mem_cons_self _ _) y (List.mem_cons_of_mem _ hy) hpx (hx y hy)
      rw [List.filter_eq_self.mpr hall,
        List.filter_eq_self.mpr (fun y hy => by simpa using hx y hy)]
    · rw [if_neg hpx] at h
      have ha : a ∈ xs := by
        have hmem : a ∈ xs.filter p := by rw [h]; exact List.mem_cons_self _ _
        exact (List.mem_filter.mp hmem).1
      have hxa : x.start_ea < a.start_ea := hx a ha
      rw [List.filter_cons, if_neg (by simp; omega)]
      exact ih t hxs
        (fun u hu v hv => hup u (List.mem_cons_of_mem _ hu) v (List.mem_cons_of_mem _ hv)) h

theorem funcLoop_eq_map (db : HostDB) (base : Int) (endEA : Nat)
    (hs : db.chunks.Pairwise (fun a b => a.start_ea < b.start_ea)) :
    ∀ fl : List Chunk,
      (∃ ea : Nat, fl = db.chunks.filter (fun x => decide (ea < x.start_ea) && !isTail x)) →
      (funcLoop db base endEA fl.head?).1 =
        (fl.filter (fun c => decide (c.start_ea < endEA))).map (mk_function_record db base) := by
  intro fl
  induction fl with
  | nil => intro _; simp [funcLoop_none]
  | cons c t ih =>
    intro hex
    obtain ⟨ea, hfl⟩ := hex
    have ht : t = db.chunks.filter (fun x => decide (c.start_ea < x.start_ea) && !isTail x) :=
      filter_cons_sorted_and db.chunks _ ea c t hs hfl.symm
    simp only [List.head?_cons]
    rw [funcLoop_some]
    by_cases hc : c.start_ea < endEA
    · rw [if_pos hc]
      dsimp only
      have hnext : get_next_func db c.start_ea = t.head? := by
        rw [get_next_func, find_eq_head_filter, ← ht]
      rw [hnext, ih ⟨c.start_ea, ht⟩]
      rw [List.filter_cons, if_pos (by simpa using hc), List.map_cons]
    · rw [if_neg hc]
      dsimp only
      have hsfl : (c :: t).Pairwise (fun a b => a.start_ea < b.start_ea) := by
        rw [hfl]; exact hs.filter _
      obtain ⟨hcy, _⟩ := List.pairwise_cons.mp hsfl
      rw [List.filter_cons, if_neg (by simpa using hc)]
      have hnil : t.filter (fun c' => decide (c'.start_ea < endEA)) = [] := by
        apply List.filter_eq_nil_iff.mpr
        intro y hy
        have := hcy y hy
        simp
        omega
      rw [hnil]
      rfl

theorem skipTails_funcLoop_eq (db : HostDB) (base : Int) (endEA : Nat)
    (hs : db.chunks.Pairwise (fun a b => a.start_ea < b.start_ea)) :
    ∀ fl : List Chunk,
      (∃ p : Chunk → Bool, fl = db.chunks.filter p ∧
        ∀ x ∈ db.chunks, ∀ y ∈ db.chunks, p x = true → x.start_ea < y.start_ea → p y = true) →
      (funcLoop db base endEA (skipTails db endEA fl.head?)).1 =
        (fl.filter (fun c => !isTail c && decide (c.start_ea < endEA))).map
          (mk_function_record db base) := by
  intro fl
  induction fl with
  | nil => intro _; simp [skipTails_none, funcLoop_none]
  | cons c t ih =>
    intro hex
    obtain ⟨p, hfl, hup⟩ := hex
    have ht : t = db.chunks.filter (fun x => decide (c.start_ea < x.start_ea)) :=
      filter_cons_sorted_up db.chunks p c t hs hup hfl.symm
    have htup : ∃ p' : Chunk → Bool, t = db.chunks.filter p' ∧
        ∀ x ∈ db.chunks, ∀ y ∈ db.chunks, p' x = true → x.start_ea < y.start_ea →
          p' y = true := by
      refine ⟨fun x => decide (c.start_ea < x.start_ea), ht, ?_⟩
      intro x _ y _ hpx hlt
      simp at hpx ⊢
      omega
    simp only [List.head?_cons]
    rw [skipTails_some]
    by_cases h1 : c.start_ea < endEA ∧ isTail c = true
    · rw [if_pos h1]
      have hnext : get_next_fchunk db c.start_ea = t.head? := by
        rw [get_next_fchunk, find_eq_head_filter, ← ht]
      rw [hnext, ih htup]
      rw [List.filter_cons, if_neg (by simp [h1.2])]
    · rw [if_neg h1]
      by_cases hc : c.start_ea < endEA
      · have htail : isTail c = false := by
          rcases Bool.eq_false_or_eq_true (isTail c) with h | h
          · exact absurd ⟨hc, h⟩ h1
          · exact h
        rw [funcLoop_some, if_pos hc]
        dsimp only
        have hnext : get_next_func db c.start_ea =
            (db.chunks.filter (fun x => decide (c.start_ea < x.start_ea) && !isTail x)).head? := by
          rw [get_next_func, find_eq_head_filter]
        rw [hnext, funcLoop_eq_map db base endEA hs _ ⟨c.start_ea, rfl⟩]
        rw [List.filter_cons, if_pos (by simp [htail, hc]), List.map_cons]
        congr 1
        rw [ht, List.filter_filter, List.filter_filter]
        congr 1
        apply List.filter_congr
        intro y _
        cases hA : !isTail y <;> cases hB : decide (y.start_ea < endEA) <;>
          cases hC : decide (c.start_ea < y.start_ea) <;> rfl
      · rw [funcLoop_some, if_neg hc]
        dsimp only
        have hsfl : (c :: t).Pairwise (fun a b => a.start_ea < b.start_ea) := by
          rw [hfl]; exact hs.filter _
        obtain ⟨hcy, _⟩ := List.pairwise_cons.mp hsfl
        rw [List.filter_cons, if_neg (by simp [hc])]
        have hnil : t.filter (fun c' => !isTail c' && decide (c'.start_ea < endEA)) = [] := by
          apply List.filter_eq_nil_iff.mpr
          intro y hy
          have := hcy y hy
          simp
          intro _
          omega
        rw [hnil]
        rfl

theorem process_functions_entry (db : HostDB)
    (hs : db.chunks.Pairwise (fun a b => a.start_ea < b.start_ea))
    (hmin : ∀ c ∈ db.chunks, db.min_ea ≤ c.start_ea)
    (hne : ∀ c ∈ db.chunks, c.start_ea < c.end_ea) :
    (match get_fchunk db db.min_ea with
      | none => get_next_fchunk db db.min_ea
      | some c => some c) = db.chunks.head? := by
  cases hchunks : db.chunks with
  | nil =>
    have h1 : get_fchunk db db.min_ea = none := by
      rw [get_fchunk, hchunks]; rfl
    have h2 : get_next_fchunk db db.min_ea = none := by
      rw [get_next_fchunk, hchunks]; rfl
    rw [h1, h2]
    simp [hchunks]
  | cons c0 rest =>
    have hs' := hs
    rw [hchunks] at hs'
    obtain ⟨hc0rest, _⟩ := List.pairwise_cons.mp hs'
    have hc0min : db.min_ea ≤ c0.start_ea := hmin c0 (by rw [hchunks]; exact List.mem_cons_self _ _)
    have hc0ne : c0.start_ea < c0.end_ea := hne c0 (by rw [hchunks]; exact List.mem_cons_self _ _)
    by_cases h0 : c0.start_ea ≤ db.min_ea
    · have hfc : get_fchunk db db.min_ea = some c0 := by
        rw [get_fchunk, hchunks]
        apply List.find?_cons_of_pos
        simp
        omega
      rw [hfc]
      rfl
    · have hfc : get_fchunk db db.min_ea = none := by
        rw [get_fchunk]
        apply List.find?_eq_none.mpr
        intro x hx
        have hxgt : db.min_ea < x.start_ea := by
          rw [hchunks] at hx
          rcases List.mem_cons.mp hx with rfl | hx'
          · omega
          · have := hc0rest x hx'
            omega
        simp
        omega
      rw [hfc]
      simp only
      rw [get_next_fchunk, hchunks]
      rw [List.find?_cons_of_pos _ (by simp; omega)]
      rfl

theorem process_functions_eq (db : HostDB) (base : Int)
    (hs : db.chunks.Pairwise (fun a b => a.start_ea < b.start_ea))
    (hmin : ∀ c ∈ db.chunks, db.min_ea ≤ c.start_ea)
    (hne : ∀ c ∈ db.chunks, c.start_ea < c.end_ea) :
    (process_functions db base).1 =
      (db.chunks.filter (fun c => !isTail c && decide (c.start_ea < db.max_ea))).map
        (mk_function_record db base) := by
  show (funcLoop db base db.max_ea (skipTails db db.max_ea
    (match get_fchunk db db.min_ea with
      | none => get_next_fchunk db db.min_ea
      | some c => some c))).1 = _
  rw [process_functions_entry db hs hmin hne]
  have h := skipTails_funcLoop_eq db base db.max_ea hs db.chunks
    ⟨fun _ => true, (List.filter_true _).symm, fun x _ y _ _ _ => rfl⟩
  exact h

theorem pairwise_key_inj {α : Type} (k : α → Nat) :
    ∀ l : List α, l.Pairwise (fun a b => k a < k b) →
      ∀ x ∈ l, ∀ y ∈ l, k x = k y → x = y := by
  intro l
  induction l with
  | nil => intro _ x hx; cases hx
  | cons z zs ih =>
    intro hs x hx y hy hk
    obtain ⟨hz, hzs⟩ := List.pairwise_cons.mp hs
    rcases List.mem_cons.mp hx with rfl | hx' <;> rcases List.mem_cons.mp hy with rfl | hy'
    · rfl
    · have := hz y hy'; omega
    · have := hz x hx'; omega
    · exact ih hzs x hx' y hy' hk

/-! ### The claims -/

/-- C1: every call of dump_info writes exactly one JSON document, at the
given filepath, whose top-level object has exactly the five keys general,
segments, exports, functions and names, holding the serialised general
section, segments, exports, functions and names. -/
theorem C1_single_json_document (db : HostDB) (filepath : String) :
    (dump_info db filepath).writes =
      [{ path := filepath
         doc := JValue.jobj
           [("general", json_of_general (process_general db)),
            ("segments", JValue.jarr
              ((process_segments db (db.get_imagebase : Int)).map json_of_segment)),
            ("exports", JValue.jarr
              ((process_exports db (db.get_imagebase : Int)).map json_of_export)),
            ("functions", JValue.jarr
              ((process_functions db (db.get_imagebase : Int)).1.map json_of_function)),
            ("names", JValue.jarr
              ((process_names db (db.get_imagebase : Int)).1.map json_of_name))] }] ∧
    (dump_info db filepath).writes.map (fun w => w.doc.topKeys) =
      [["general", "segments", "exports", "functions", "names"]] :=
  ⟨rfl, rfl⟩

/-- C2: every record of every section carries as its RVA field the host
effective address of its source object minus the image base that dump_info
reads once at the start: segment records subtract the base from the
segment start, function records from the function chunk start, export
records from the entry address, name records from the name-list address. -/
theorem C2_rva_is_ea_minus_base (db : HostDB) :
    (∀ rec ∈ process_segments db (db.get_imagebase : Int),
      ∃ n : Nat, n < db.segm_qty ∧ ∃ seg : Segment, db.getnseg n = some seg ∧
        rec.start_rva = (seg.start_ea : Int) - (db.get_imagebase : Int)) ∧
    (∀ rec ∈ (process_functions db (db.get_imagebase : Int)).1,
      ∃ c ∈ db.chunks, rec.start_rva = (c.start_ea : Int) - (db.get_imagebase : Int)) ∧
    (∀ rec ∈ process_exports db (db.get_imagebase : Int),
      ∃ i : Nat, i < db.entry_qty ∧
        rec.rva = (db.get_entry (db.get_entry_ordinal i) : Int) - (db.get_imagebase : Int)) ∧
    (∀ rec ∈ (process_names db (db.get_imagebase : Int)).1,
      ∃ i : Nat, i < db.nlist_size ∧
        rec.rva = (db.get_nlist_ea i : Int) - (db.get_imagebase : Int)) := by
  refine ⟨?_, ?_, ?_, ?_⟩
  · intro rec hrec
    unfold process_segments at hrec
    rw [List.mem_filterMap] at hrec
    obtain ⟨n, hn, heq⟩ := hrec
    refine ⟨n, List.mem_range.mp hn, ?_⟩
    cases hseg : db.getnseg n with
    | none => rw [hseg] at heq; cases heq
    | some seg =>
      rw [hseg] at heq
      injection heq with heq
      exact ⟨seg, rfl, by rw [← heq]; rfl⟩
  · intro rec hrec
    obtain ⟨c, hc, heq⟩ := mem_process_functions db _ rec hrec
    exact ⟨c, hc, by rw [heq]; rfl⟩
  · intro rec hrec
    unfold process_exports at hrec
    rw [List.mem_map] at hrec
    obtain ⟨i, hi, heq⟩ := hrec
    exact ⟨i, List.mem_range.mp hi, by rw [← heq]; rfl⟩
  · intro rec hrec
    obtain ⟨i, hi, _, heq⟩ := mem_names_loop db _ _ rec hrec
    exact ⟨i, List.mem_range.mp hi, by rw [heq]; rfl⟩

/-- C2 witness: the four parts of C2 instantiated on the sample database. -/
theorem C2_witness :
    (∃ n : Nat, n < sampleDB.segm_qty ∧ ∃ seg : Segment, sampleDB.getnseg n = some seg ∧
      (mk_segment_record (sampleDB.get_imagebase : Int)
        ⟨0x1000, ".text", "CODE", 1⟩).start_rva =
        (seg.start_ea : Int) - (sampleDB.get_imagebase : Int)) ∧
    (∃ c ∈ sampleDB.chunks,
      (mk_function_record sampleDB (sampleDB.get_imagebase : Int)
        ⟨0x1000, 0x1010, 0⟩).start_rva =
        (c.start_ea : Int) - (sampleDB.get_imagebase : Int)) ∧
    (∃ i : Nat, i < sampleDB.entry_qty ∧
      (mk_export_record sampleDB (sampleDB.get_imagebase : Int) 0).rva =
        (sampleDB.get_entry (sampleDB.get_entry_ordinal i) : Int) -
          (sampleDB.get_imagebase : Int)) ∧
    (∃ i : Nat, i < sampleDB.nlist_size ∧
      (mk_name_record sampleDB (sampleDB.get_imagebase : Int) 0).rva =
        (sampleDB.get_nlist_ea i : Int) - (sampleDB.get_imagebase : Int)) :=
  ⟨(C2_rva_is_ea_minus_base sampleDB).1 _ (by decide),
   (C2_rva_is_ea_minus_base sampleDB).2.1 _ (by decide),
   (C2_rva_is_ea_minus_base sampleDB).2.2.1 _ (by decide),
   (C2_rva_is_ea_minus_base sampleDB).2.2.2 _ (by decide)⟩

/-- C3 counterexample: __describe_callingconvention is not a total map
from integer codes to strings; at code 1 it returns Python None. -/
theorem C3_counterexample :
    describe_callingconvention 1 = none ∧
      ¬∃ s : String, describe_callingconvention 1 = some s := by
  refine ⟨rfl, ?_⟩
  rintro ⟨s, hs⟩
  rw [show describe_callingconvention 1 = none from rfl] at hs
  cases hs

/-- C3 amended: __describe_argloc is a total map, returning one of the
eight fixed location strings and "custom" for every code outside 0..6,
while __describe_callingconvention returns a string precisely for the
sixteen codes 0x00, 0x10, ..., 0xF0 and None for every other integer. -/
theorem C3_lookup_tables (loc cc : Int) :
    (describe_argloc loc ∈ (["none", "stack", "distributed", "register_one",
      "register_pair", "register_relative", "global_address", "custom"] : List String)) ∧
    ((loc < 0 ∨ 6 < loc) → describe_argloc loc = "custom") ∧
    ((describe_callingconvention cc).isSome = true ↔
      cc ∈ ([0x00, 0x10, 0x20, 0x30, 0x40, 0x50, 0x60, 0x70, 0x80, 0x90,
        0xA0, 0xB0, 0xC0, 0xD0, 0xE0, 0xF0] : List Int)) := by
  refine ⟨?_, ?_, ?_⟩
  · unfold describe_argloc
    split_ifs <;> simp
  · intro hrange
    unfold describe_argloc
    split_ifs with h0 h1 h2 h3 h4 h5 h6 <;> first | rfl | omega
  · constructor
    · intro h
      unfold describe_callingconvention at h
      simp only [List.mem_cons, List.not_mem_nil, or_false]
      by_contra hall
      push_neg at hall
      obtain ⟨n0, n1, n2, n3, n4, n5, n6, n7, n8, n9, n10, n11, n12, n13, n14, n15⟩ := hall
      rw [if_neg n0, if_neg n1, if_neg n2, if_neg n3, if_neg n4, if_neg n5, if_neg n6,
        if_neg n7, if_neg n8, if_neg n9, if_neg n10, if_neg n11, if_neg n12, if_neg n13,
        if_neg n14, if_neg n15] at h
      simp at h
    · intro h
      simp only [List.mem_cons, List.not_mem_nil, or_false] at h
      rcases h with rfl | rfl | rfl | rfl | rfl | rfl | rfl | rfl | rfl | rfl | rfl |
        rfl | rfl | rfl | rfl | rfl <;> rfl

/-- C3 witness: the amended claim at concrete inputs 7 and 0x30. -/
theorem C3_witness :
    describe_argloc 7 = "custom" ∧ (describe_callingconvention 0x30).isSome = true :=
  ⟨(C3_lookup_tables 7 0x30).2.1 (Or.inr (by norm_num)),
   (C3_lookup_tables 7 0x30).2.2.mpr (by decide)⟩

/-- C4: dump_info only reads the host database: the database state it
hands back is the one it received, and its only effects are the single
JSON file written at filepath and the stderr warning lines. -/
theorem C4_read_only (db : HostDB) (filepath : String) :
    (dump_info db filepath).dbAfter = db ∧
    ∃ doc : JValue, (dump_info db filepath).writes = [{ path := filepath, doc := doc }] :=
  ⟨rfl, _, rfl⟩

/-- C5: over a host chunk list that is sorted by start address, lies at or
above the database minimum address and has nonempty chunks, the functions
section is exactly one record per non-tail chunk starting below the
maximum address, in list order; the emitted start RVAs are strictly
increasing and every such function is emitted exactly once. -/
theorem C5_functions_single_pass (db : HostDB) (base : Int)
    (hs : db.chunks.Pairwise (fun a b => a.start_ea < b.start_ea))
    (hmin : ∀ c ∈ db.chunks, db.min_ea ≤ c.start_ea)
    (hne : ∀ c ∈ db.chunks, c.start_ea < c.end_ea) :
    (process_functions db base).1 =
      (db.chunks.filter (fun c => !isTail c && decide (c.start_ea < db.max_ea))).map
        (mk_function_record db base) ∧
    ((process_functions db base).1.map (fun rec => rec.start_rva)).Pairwise (· < ·) ∧
    ∀ c ∈ db.chunks, isTail c = false → c.start_ea < db.max_ea →
      (process_functions db base).1.count (mk_function_record db base c) = 1 := by
  have hmain := process_functions_eq db base hs hmin hne
  have hfs : (db.chunks.filter
      (fun c => !isTail c && decide (c.start_ea < db.max_ea))).Pairwise
      (fun a b => a.start_ea < b.start_ea) := hs.filter _
  refine ⟨hmain, ?_, ?_⟩
  · rw [hmain, List.map_map]
    rw [List.pairwise_map]
    apply hfs.imp
    intro a b hab
    show (a.start_ea : Int) - base < (b.start_ea : Int) - base
    omega
  · intro c hc htail hlt
    rw [hmain]
    have hmem : c ∈ db.chunks.filter
        (fun c => !isTail c && decide (c.start_ea < db.max_ea)) :=
      List.mem_filter.mpr ⟨hc, by simp [htail, hlt]⟩
    have hnodup : (db.chunks.filter
        (fun c => !isTail c && decide (c.start_ea < db.max_ea))).Nodup :=
      hfs.imp (fun hab => by intro heq; subst heq; omega)
    have hmapnodup : ((db.chunks.filter
        (fun c => !isTail c && decide (c.start_ea < db.max_ea))).map
        (mk_function_record db base)).Nodup := by
      apply List.Nodup.map_on ?_ hnodup
      intro x hx y hy hxy
      apply pairwise_key_inj (fun c => c.start_ea) _ hfs x hx y hy
      have : (mk_function_record db base x).start_rva =
          (mk_function_record db base y).start_rva := by rw [hxy]
      have hxr : (mk_function_record db base x).start_rva =
          (x.start_ea : Int) - base := rfl
      have hyr : (mk_function_record db base y).start_rva =
          (y.start_ea : Int) - base := rfl
      rw [hxr, hyr] at this
      omega
    exact List.count_eq_one_of_mem hmapnodup (List.mem_map_of_mem _ hmem)

/-- C5 witness: the hypotheses of C5 hold on the sample database, and the
theorem applies to it. -/
theorem C5_witness :
    (sampleDB.chunks.Pairwise (fun a b => a.start_ea < b.start_ea) ∧
      (∀ c ∈ sampleDB.chunks, sampleDB.min_ea ≤ c.start_ea) ∧
      (∀ c ∈ sampleDB.chunks, c.start_ea < c.end_ea)) ∧
    ((process_functions sampleDB 0).1 =
      (sampleDB.chunks.filter
        (fun c => !isTail c && decide (c.start_ea < sampleDB.max_ea))).map
        (mk_function_record sampleDB 0) ∧
    ((process_functions sampleDB 0).1.map (fun rec => rec.start_rva)).Pairwise (· < ·) ∧
    ∀ c ∈ sampleDB.chunks, isTail c = false → c.start_ea < sampleDB.max_ea →
      (process_functions sampleDB 0).1.count (mk_function_record sampleDB 0 c) = 1) :=
  ⟨⟨by decide, by decide, by decide⟩,
   C5_functions_single_pass sampleDB 0 (by decide) (by decide) (by decide)⟩

/-- C6: dump_info is deterministic: two runs over host databases that
agree on every queried component, with the same filepath, produce the
same result (in particular the same JSON output and stderr lines). -/
theorem C6_deterministic (db1 db2 : HostDB) (filepath : String)
    (h1 : db1.get_imagebase = db2.get_imagebase)
    (h2 : db1.root_filename = db2.root_filename)
    (h3 : db1.procname = db2.procname)
    (h4 : db1.is_32bit_exactly = db2.is_32bit_exactly)
    (h5 : db1.min_ea = db2.min_ea)
    (h6 : db1.max_ea = db2.max_ea)
    (h7 : db1.segm_qty = db2.segm_qty)
    (h8 : db1.getnseg = db2.getnseg)
    (h9 : db1.entry_qty = db2.entry_qty)
    (h10 : db1.get_entry_ordinal = db2.get_entry_ordinal)
    (h11 : db1.get_entry = db2.get_entry)
    (h12 : db1.get_entry_name = db2.get_entry_name)
    (h13 : db1.get_full_flags = db2.get_full_flags)
    (h14 : db1.is_func_flag = db2.is_func_flag)
    (h15 : db1.is_data_flag = db2.is_data_flag)
    (h16 : db1.chunks = db2.chunks)
    (h17 : db1.get_func_name = db2.get_func_name)
    (h18 : db1.is_public_name = db2.is_public_name)
    (h19 : db1.get_visible_name = db2.get_visible_name)
    (h20 : db1.code_items = db2.code_items)
    (h21 : db1.func_cc = db2.func_cc)
    (h22 : db1.func_rettype = db2.func_rettype)
    (h23 : db1.func_args = db2.func_args)
    (h24 : db1.nlist_size = db2.nlist_size)
    (h25 : db1.get_nlist_ea = db2.get_nlist_ea)
    (h26 : db1.get_nlist_name = db2.get_nlist_name) :
    dump_info db1 filepath = dump_info db2 filepath := by
  have hdb : db1 = db2 := by
    cases db1
    cases db2
    simp_all
  rw [hdb]

/-- C6 witness: the hypotheses of C6 are satisfiable (the sample database
agrees with itself on every component). -/
theorem C6_witness :
    dump_info sampleDB "fakepdb.json" = dump_info sampleDB "fakepdb.json" :=
  C6_deterministic sampleDB sampleDB "fakepdb.json" rfl rfl rfl rfl rfl rfl rfl rfl
    rfl rfl rfl rfl rfl rfl rfl rfl rfl rfl rfl rfl rfl rfl rfl rfl rfl rfl

/-- C7: in every emitted function record and every emitted label record,
is_autonamed is true exactly when the FF_LABL bit is set in the host's
full flags at the record's address (the function chunk start for function
records, the code item address for label records). -/
theorem C7_autonamed_iff_FF_LABL (db : HostDB) (base : Int) :
    (∀ rec ∈ (process_functions db base).1,
      ∃ c ∈ db.chunks, rec.start_rva = (c.start_ea : Int) - base ∧
        (rec.is_autonamed = true ↔ db.get_full_flags c.start_ea &&& FF_LABL ≠ 0)) ∧
    (∀ func : Chunk, ∀ rec ∈ process_function_labels db func,
      ∃ ea ∈ db.code_items func, rec.offset = (ea : Int) - (func.start_ea : Int) ∧
        (rec.is_autonamed = true ↔ db.get_full_flags ea &&& FF_LABL ≠ 0)) := by
  constructor
  · intro rec hrec
    obtain ⟨c, hc, heq⟩ := mem_process_functions db base rec hrec
    subst heq
    refine ⟨c, hc, rfl, ?_⟩
    show ((db.get_full_flags c.start_ea &&& FF_LABL) != 0) = true ↔ _
    simp [bne_iff_ne]
  · intro func rec hrec
    unfold process_function_labels at hrec
    rw [List.mem_filterMap] at hrec
    obtain ⟨ea, hea, heq⟩ := hrec
    dsimp only at heq
    by_cases hname : db.get_visible_name ea ≠ ""
    · rw [if_pos hname] at heq
      injection heq with heq
      subst heq
      refine ⟨ea, hea, rfl, ?_⟩
      show ((db.get_full_flags ea &&& FF_LABL) != 0) = true ↔ _
      simp [bne_iff_ne]
    · rw [if_neg hname] at heq
      cases heq

/-- C7 witness: the function part of C7 instantiated on the sample
database's first function chunk. -/
theorem C7_witness :
    ∃ c ∈ sampleDB.chunks,
      (mk_function_record sampleDB 0 ⟨0x1000, 0x1010, 0⟩).start_rva =
        (c.start_ea : Int) - 0 ∧
      ((mk_function_record sampleDB 0 ⟨0x1000, 0x1010, 0⟩).is_autonamed = true ↔
        sampleDB.get_full_flags c.start_ea &&& FF_LABL ≠ 0) :=
  (C7_autonamed_iff_FF_LABL sampleDB 0).1 _ (by decide)

/-- C8: the bitness field of the general section is 32 exactly when the
host reports the database as exactly 32-bit and 64 otherwise; it is never
the dead initial value 16. -/
theorem C8_bitness_32_or_64 (db : HostDB) :
    ((process_general db).bitness = if db.is_32bit_exactly then 32 else 64) ∧
    (process_general db).bitness ≠ 16 ∧
    ((process_general db).bitness = 32 ↔ db.is_32bit_exactly = true) ∧
    ((process_general db).bitness = 32 ∨ (process_general db).bitness = 64) := by
  cases h : db.is_32bit_exactly <;> simp [process_general, h]

/-- C9: every record of the names section has is_func = false: entries
inside a function are skipped before the record is built, and is_func is
the same membership test the skip already decided negatively. -/
theorem C9_names_is_func_false (db : HostDB) (base : Int) :
    ∀ rec ∈ (process_names db base).1, rec.is_func = false := by
  intro rec hrec
  obtain ⟨i, _, hns, heq⟩ := mem_names_loop db base _ rec hrec
  subst heq
  exact hns

/-- C9 witness: the sample database's single name record. -/
theorem C9_witness : (mk_name_record sampleDB 0 0).is_func = false :=
  C9_names_is_func_false sampleDB 0 _ (by decide)

/-- C10: the RVA range check never filters: the record lists of the
functions and names loops equal their counterparts computed with no check
at all, and a record whose RVA is at least 2^32 is still appended. -/
theorem C10_rva_check_warns_only (db : HostDB) (base : Int) (endEA : Nat) :
    (∀ o : Option Chunk, (funcLoop db base endEA o).1 = funcLoopRecords db base endEA o) ∧
    (∀ l : List Nat, (names_loop db base l).1 = names_loopRecords db base l) ∧
    (∀ c : Chunk, c.start_ea < endEA →
      2 ^ 32 ≤ (mk_function_record db base c).start_rva →
      mk_function_record db base c ∈ (funcLoop db base endEA (some c)).1) ∧
    (∀ l : List Nat, ∀ i ∈ l, (get_func db (db.get_nlist_ea i)).isSome = false →
      2 ^ 32 ≤ (mk_name_record db base i).rva →
      mk_name_record db base i ∈ (names_loop db base l).1) := by
  refine ⟨funcLoop_records db base endEA, names_loop_records db base, ?_, ?_⟩
  · intro c hlt _
    rw [funcLoop_some, if_pos hlt]
    exact List.mem_cons_self _ _
  · intro l i hmem hnf _
    exact names_loop_mem_of db base l i hmem hnf

/-- C10 witness: a function chunk and a name entry at address 2^32 (RVA
2^32 with image base 0) are still emitted. -/
theorem C10_witness :
    mk_function_record sampleDB 0 ⟨0x100000000, 0x100000010, 0⟩ ∈
      (funcLoop sampleDB 0 0x200000000 (some ⟨0x100000000, 0x100000010, 0⟩)).1 ∧
    mk_name_record sampleDB 0 0 ∈ (names_loop sampleDB 0 (List.range sampleDB.nlist_size)).1 :=
  ⟨(C10_rva_check_warns_only sampleDB 0 0x200000000).2.2.1 _ (by decide) (by decide),
   (C10_rva_check_warns_only sampleDB 0 0x200000000).2.2.2
     (List.range sampleDB.nlist_size) 0 (by decide) (by decide) (by decide)⟩

end FakePDB
